import Mathlib

/-!
Verification of the solver-agnostic MILP formulation of the optims-sbb
activity-scheduling system.

The Python sources build a mixed-integer linear program per person.  We embed
each constraint-building method as a `Prop` over an explicit assignment of
rational values to the decision variables (OR-tools `NumVar`/`IntVar` values),
mirroring the loops of the source line by line, and prove what every feasible
assignment satisfies.  Rational numbers stand in for the solver's reals.
-/

namespace OptimsSbb

/-! ## Reserved activity names (src/utils/constants.py)

The constants module only defines the reserved names of the three anchor
activity types; their concrete string values are irrelevant to the model,
only the fact that the formulation compares labels and types against them. -/

def HOME_NAME : String := "home"

def DAWN_NAME : String := "dawn"

def DUSK_NAME : String := "dusk"

/-! ## Containers (src/scenario/container, src/parameter, src/config) -/

/-- `Location` from src/scenario/container/locations.py (its `__str__` is
its `name`; coordinates are irrelevant to the formulation). -/
structure Location where
  name : String
deriving DecidableEq, Repr

/-- `Activity` from src/scenario/container/activity_sets.py, restricted to the
fields read by the formulation and the extraction.  `locations` keeps its
loaded list form, `mode` its loaded string form (loader default `""`). -/
structure Activity where
  label : String
  scoring_group : String
  act_type : String
  tour_type : String
  locations : List Location
  location_group : String
  desired_timing : List ℚ
  desired_duration : List ℚ
  is_primary : Bool
  is_subtour : Bool
  tour_no : Int
  participation : Int
  mode : String
deriving DecidableEq, Repr

/-- `ActivityParamContainer` from src/parameter/activity_param_container.py. -/
structure ActivityParamContainer where
  feasible_start : ℚ
  feasible_end : ℚ
  constant : ℚ := 0
  des_timing_mean : ℚ := 0
  des_timing_std : ℚ := 0
  pen_early : ℚ := 0
  pen_late : ℚ := 0
  des_duration_mean : ℚ := 0
  des_duration_std : ℚ := 0
  pen_short : ℚ := 0
  pen_long : ℚ := 0
deriving DecidableEq, Repr

/-- `TimePeriod` from src/scenario/container/travel_components.py (the
`period` tuple `(start, end)`). -/
structure TimePeriod where
  name : String
  period : ℚ × ℚ
deriving DecidableEq, Repr

/-! ## Small helpers shared by the embeddings -/

/-- Sum of a linear expression over a list of indices
(the embedding of `m.Sum(expr for a in labels)`). -/
def sumOver {α : Type} (l : List α) (f : α → ℚ) : ℚ :=
  (l.map f).sum

/-- A solver `IntVar` with bounds `lb=0, ub=1` takes value 0 or 1. -/
def binary (v : ℚ) : Prop := v = 0 ∨ v = 1

instance (v : ℚ) : Decidable (binary v) := by
  unfold binary; infer_instance

/-- Python's `max` of a list, 0 on the empty list (on which the source
raises instead; every use below is on a non-empty list). -/
def qmaxList : List ℚ → ℚ
  | [] => 0
  | [a] => a
  | a :: b :: rest => max a (qmaxList (b :: rest))

/-- Minimum of a list of rationals, 0 on the empty list. -/
def qminList : List ℚ → ℚ
  | [] => 0
  | [a] => a
  | a :: b :: rest => min a (qminList (b :: rest))

/-! ## Basic model (src/ortools_model/basic_model.py)

Decision variables created by `_add_decision_variables`:
`w[a]` participation (binary), `z[a,b]` sequence (binary), and the
unbounded reals `x[a]` start time, `d[a]` duration, `tt[a]` travel time. -/

/-- An assignment of values to the basic decision variables. -/
structure BasicAssignment where
  w : String → ℚ
  z : String → String → ℚ
  x : String → ℚ
  d : String → ℚ
  tt : String → ℚ

/-- Integrality and bounds of the `IntVar(lb=0, ub=1)` variables `w` and `z`. -/
def basicVarBounds (labels : List String) (A : BasicAssignment) : Prop :=
  (∀ a ∈ labels, binary (A.w a)) ∧
  (∀ a ∈ labels, ∀ b ∈ labels, binary (A.z a b))

/-- The day horizon: `max([tp.period[1] for tp in self.config.time_periods])`
(`max_time` in `_add_basic_constraints`). -/
def maxTime (time_periods : List TimePeriod) : ℚ :=
  qmaxList (time_periods.map fun tp => tp.period.2)

/-- The constraints posted by `BasicModel._add_basic_constraints`, line by
line over the activity list, for an assignment `A`.  `actParam t g` stands
for the (assumed present) dictionary entry
`self.activity_scoring.param[(t, g)]`. -/
def basicConstraints (time_periods : List TimePeriod) (min_act_duration : ℚ)
    (actParam : String → String → ActivityParamContainer)
    (acts : List Activity) (A : BasicAssignment) : Prop :=
  let act_labels := acts.map (·.label)
  let max_time := maxTime time_periods
  sumOver act_labels (fun a => A.d a + A.tt a) = max_time ∧
  ∀ act ∈ acts,
    A.z act.label DAWN_NAME = 0 ∧
    A.z DUSK_NAME act.label = 0 ∧
    A.z act.label act.label = 0 ∧
    (∀ b ∈ act_labels, b ≠ act.label →
      A.z act.label b + A.z b act.label ≤ 1) ∧
    A.w act.label * min_act_duration ≤ A.d act.label ∧
    A.x act.label ≥ (actParam act.act_type act.scoring_group).feasible_start ∧
    A.x act.label + A.d act.label ≤
      (actParam act.act_type act.scoring_group).feasible_end ∧
    (∀ b ∈ act_labels,
      A.x act.label + A.d act.label + A.tt act.label - A.x b ≥
        (A.z act.label b - 1) * max_time ∧
      A.x act.label + A.d act.label + A.tt act.label - A.x b ≤
        (1 - A.z act.label b) * max_time) ∧
    (if act.label = DAWN_NAME then A.x act.label = 0
     else sumOver (act_labels.filter (· ≠ act.label))
        (fun b => A.z b act.label) = A.w act.label) ∧
    (if act.label = DUSK_NAME then A.x act.label + A.d act.label = max_time
     else sumOver (act_labels.filter (· ≠ act.label))
        (fun b => A.z act.label b) = A.w act.label)

theorem sumOver_nil {α : Type} (f : α → ℚ) : sumOver [] f = 0 := rfl

theorem sumOver_cons {α : Type} (a : α) (l : List α) (f : α → ℚ) :
    sumOver (a :: l) f = f a + sumOver l f := by
  simp [sumOver]

theorem sumOver_eq_zero {α : Type} (l : List α) (f : α → ℚ)
    (h : ∀ b ∈ l, f b = 0) : sumOver l f = 0 := by
  induction l with
  | nil => rfl
  | cons a t ih =>
    rw [sumOver_cons, h a (by simp), ih (fun b hb => h b (by simp [hb]))]
    norm_num

theorem binarySum_nonneg {α : Type} (l : List α) (f : α → ℚ)
    (h : ∀ b ∈ l, binary (f b)) : 0 ≤ sumOver l f := by
  induction l with
  | nil => simp [sumOver]
  | cons a t ih =>
    rw [sumOver_cons]
    have ha := h a (by simp)
    have ht := ih (fun b hb => h b (by simp [hb]))
    rcases ha with h0 | h1 <;> linarith

theorem binarySum_eq_zero {α : Type} (l : List α) (f : α → ℚ)
    (h : ∀ b ∈ l, binary (f b)) (hs : sumOver l f = 0) :
    ∀ b ∈ l, f b = 0 := by
  induction l with
  | nil => simp
  | cons a t ih =>
    rw [sumOver_cons] at hs
    have ha := h a (by simp)
    have ht : ∀ b ∈ t, binary (f b) := fun b hb => h b (by simp [hb])
    have hnn := binarySum_nonneg t f ht
    have hfa : f a = 0 := by
      rcases ha with h0 | h1
      · exact h0
      · exfalso; linarith
    intro b hb
    rcases List.mem_cons.mp hb with rfl | hbt
    · exact hfa
    · exact ih ht (by linarith) b hbt

theorem binarySum_eq_one {α : Type} (l : List α) (f : α → ℚ)
    (h : ∀ b ∈ l, binary (f b)) (hs : sumOver l f = 1) :
    ∃ b ∈ l, f b = 1 ∧ ∀ c ∈ l, f c = 1 → c = b := by
  induction l with
  | nil => simp [sumOver] at hs
  | cons a t ih =>
    rw [sumOver_cons] at hs
    have ha := h a (by simp)
    have ht : ∀ b ∈ t, binary (f b) := fun b hb => h b (by simp [hb])
    rcases ha with h0 | h1
    · obtain ⟨b, hbt, hfb, huniq⟩ := ih ht (by linarith)
      refine ⟨b, by simp [hbt], hfb, ?_⟩
      intro c hc hfc
      rcases List.mem_cons.mp hc with rfl | hct
      · rw [h0] at hfc; exact absurd hfc (by norm_num)
      · exact huniq c hct hfc
    · have hz := binarySum_eq_zero t f ht (by linarith)
      refine ⟨a, by simp, h1, ?_⟩
      intro c hc hfc
      rcases List.mem_cons.mp hc with rfl | hct
      · rfl
      · rw [hz c hct] at hfc; exact absurd hfc (by norm_num)

/-- Claim C4: in every feasible assignment of the formulated model, the sum
over all activities of duration plus travel time equals the horizon, where
the horizon is the maximum end value over the configured time periods. -/
theorem day_budget_closure (time_periods : List TimePeriod)
    (min_act_duration : ℚ) (actParam : String → String → ActivityParamContainer)
    (acts : List Activity) (A : BasicAssignment)
    (hB : basicConstraints time_periods min_act_duration actParam acts A) :
    sumOver (acts.map (·.label)) (fun a => A.d a + A.tt a) =
      qmaxList (time_periods.map fun tp => tp.period.2) := by
  exact hB.1

/-- Claim C10: the feasible-window constraints hold unconditionally for every
activity, including non-participating ones: `x[a] ≥ feasible_start` and
`x[a] + d[a] ≤ feasible_end` even when `w[a] = 0`; moreover
`d[a] ≥ w[a] * min_act_duration`, hence `d[a] ≥ 0` for every inactive
activity. -/
theorem feasible_window_unconditional (time_periods : List TimePeriod)
    (min_act_duration : ℚ) (actParam : String → String → ActivityParamContainer)
    (acts : List Activity) (A : BasicAssignment)
    (hB : basicConstraints time_periods min_act_duration actParam acts A) :
    ∀ act ∈ acts,
      A.x act.label ≥ (actParam act.act_type act.scoring_group).feasible_start ∧
      A.x act.label + A.d act.label ≤
        (actParam act.act_type act.scoring_group).feasible_end ∧
      A.w act.label * min_act_duration ≤ A.d act.label ∧
      (A.w act.label = 0 → 0 ≤ A.d act.label) := by
  intro act hact
  obtain ⟨-, -, -, -, hmin, hxlo, hxhi, -, -, -⟩ := hB.2 act hact
  refine ⟨hxlo, hxhi, hmin, ?_⟩
  intro hw0
  have := hmin
  rw [hw0] at this
  linarith

/-- Claim C3: in every feasible assignment, the DAWN activity has `x = 0`
fixed, the DUSK activity has `x + d = horizon` fixed, every non-DAWN activity
satisfies `Σ_b z[b,a] = w[a]`, every non-DUSK activity satisfies
`Σ_b z[a,b] = w[a]`, and consequently an active non-anchor activity has
exactly one predecessor edge and exactly one successor edge in `z` while an
inactive one has none. -/
theorem anchor_and_degree_constraints (time_periods : List TimePeriod)
    (min_act_duration : ℚ) (actParam : String → String → ActivityParamContainer)
    (acts : List Activity) (A : BasicAssignment)
    (hB : basicConstraints time_periods min_act_duration actParam acts A)
    (hV : basicVarBounds (acts.map (·.label)) A)
    (dawnAct : Activity) (hdmem : dawnAct ∈ acts) (hdlab : dawnAct.label = DAWN_NAME)
    (duskAct : Activity) (humem : duskAct ∈ acts) (hulab : duskAct.label = DUSK_NAME) :
    A.x DAWN_NAME = 0 ∧
    A.x DUSK_NAME + A.d DUSK_NAME = maxTime time_periods ∧
    (∀ act ∈ acts, act.label ≠ DAWN_NAME →
      sumOver ((acts.map (·.label)).filter (· ≠ act.label))
        (fun b => A.z b act.label) = A.w act.label) ∧
    (∀ act ∈ acts, act.label ≠ DUSK_NAME →
      sumOver ((acts.map (·.label)).filter (· ≠ act.label))
        (fun b => A.z act.label b) = A.w act.label) ∧
    (∀ act ∈ acts, act.label ≠ DAWN_NAME → act.label ≠ DUSK_NAME →
      (A.w act.label = 1 →
        (∃ b ∈ (acts.map (·.label)).filter (· ≠ act.label),
          A.z b act.label = 1 ∧
          ∀ c ∈ (acts.map (·.label)).filter (· ≠ act.label),
            A.z c act.label = 1 → c = b) ∧
        (∃ b ∈ (acts.map (·.label)).filter (· ≠ act.label),
          A.z act.label b = 1 ∧
          ∀ c ∈ (acts.map (·.label)).filter (· ≠ act.label),
            A.z act.label c = 1 → c = b)) ∧
      (A.w act.label = 0 →
        (∀ b ∈ acts.map (·.label), A.z b act.label = 0) ∧
        (∀ b ∈ acts.map (·.label), A.z act.label b = 0))) := by
  have hfilter_mem : ∀ (a : String) (b : String),
      b ∈ (acts.map (·.label)).filter (· ≠ a) → b ∈ acts.map (·.label) := by
    intro a b hb
    exact (List.mem_filter.mp hb).1
  have hxdawn : A.x DAWN_NAME = 0 := by
    obtain ⟨-, -, -, -, -, -, -, -, hpred, -⟩ := hB.2 dawnAct hdmem
    rw [hdlab] at hpred
    rw [if_pos rfl] at hpred
    exact hpred
  have hxdusk : A.x DUSK_NAME + A.d DUSK_NAME = maxTime time_periods := by
    obtain ⟨-, -, -, -, -, -, -, -, -, hsucc⟩ := hB.2 duskAct humem
    rw [hulab] at hsucc
    rw [if_pos rfl] at hsucc
    exact hsucc
  refine ⟨hxdawn, hxdusk, ?_, ?_, ?_⟩
  · intro act hact hne
    obtain ⟨-, -, -, -, -, -, -, -, hpred, -⟩ := hB.2 act hact
    rw [if_neg hne] at hpred
    exact hpred
  · intro act hact hne
    obtain ⟨-, -, -, -, -, -, -, -, -, hsucc⟩ := hB.2 act hact
    rw [if_neg hne] at hsucc
    exact hsucc
  · intro act hact hneD hneU
    obtain ⟨-, -, hzaa, -, -, -, -, -, hpred, hsucc⟩ := hB.2 act hact
    rw [if_neg hneD] at hpred
    rw [if_neg hneU] at hsucc
    have hbinpred : ∀ b ∈ (acts.map (·.label)).filter (· ≠ act.label),
        binary (A.z b act.label) := by
      intro b hb
      exact hV.2 b (hfilter_mem _ b hb) act.label (List.mem_map.mpr ⟨act, hact, rfl⟩)
    have hbinsucc : ∀ b ∈ (acts.map (·.label)).filter (· ≠ act.label),
        binary (A.z act.label b) := by
      intro b hb
      exact hV.2 act.label (List.mem_map.mpr ⟨act, hact, rfl⟩) b (hfilter_mem _ b hb)
    constructor
    · intro hw1
      rw [hw1] at hpred hsucc
      exact ⟨binarySum_eq_one _ _ hbinpred hpred, binarySum_eq_one _ _ hbinsucc hsucc⟩
    · intro hw0
      rw [hw0] at hpred hsucc
      have hzpred := binarySum_eq_zero _ _ hbinpred hpred
      have hzsucc := binarySum_eq_zero _ _ hbinsucc hsucc
      constructor
      · intro b hb
        by_cases hba : b = act.label
        · rw [hba]; exact hzaa
        · exact hzpred b (List.mem_filter.mpr ⟨hb, by simpa using hba⟩)
      · intro b hb
        by_cases hba : b = act.label
        · rw [hba]; exact hzaa
        · exact hzsucc b (List.mem_filter.mpr ⟨hb, by simpa using hba⟩)

/-! ### A concrete feasible instance of the basic model

Two activities (the DAWN and DUSK anchors), one time period `(0, 24)`,
and a hand-checked feasible assignment; used to evaluate the theorems above
on concrete data. -/

/-- The DAWN anchor activity of the concrete instance. -/
def exDawn : Activity :=
  { label := DAWN_NAME, scoring_group := "", act_type := DAWN_NAME,
    tour_type := "secondary", locations := [⟨"h"⟩], location_group := "",
    desired_timing := [0], desired_duration := [10], is_primary := false,
    is_subtour := false, tour_no := -1, participation := 1, mode := "" }

/-- The DUSK anchor activity of the concrete instance. -/
def exDusk : Activity :=
  { label := DUSK_NAME, scoring_group := "", act_type := DUSK_NAME,
    tour_type := "secondary", locations := [⟨"h"⟩], location_group := "",
    desired_timing := [12], desired_duration := [12], is_primary := false,
    is_subtour := false, tour_no := -1, participation := 1, mode := "" }

/-- The concrete activity list. -/
def exActs : List Activity := [exDawn, exDusk]

/-- The concrete configured time periods. -/
def exTps : List TimePeriod := [⟨"day", (0, 24)⟩]

/-- Concrete utility parameters: feasible window `[0, 24]` for every
(type, group) pair. -/
def exParam : String → String → ActivityParamContainer :=
  fun _ _ => { feasible_start := 0, feasible_end := 24 }

/-- A feasible assignment of the concrete basic model: both anchors active,
DAWN (start 0, duration 10, travel 2) immediately precedes DUSK
(start 12, duration 12, travel 0). -/
def exAssign : BasicAssignment :=
  { w := fun _ => 1,
    z := fun a b => if a = DAWN_NAME ∧ b = DUSK_NAME then 1 else 0,
    x := fun a => if a = DUSK_NAME then 12 else 0,
    d := fun a => if a = DUSK_NAME then 12 else 10,
    tt := fun a => if a = DUSK_NAME then 0 else 2 }

instance basicConstraints.decidable (time_periods : List TimePeriod)
    (min_act_duration : ℚ) (actParam : String → String → ActivityParamContainer)
    (acts : List Activity) (A : BasicAssignment) :
    Decidable (basicConstraints time_periods min_act_duration actParam acts A) := by
  unfold basicConstraints
  infer_instance

instance basicVarBounds.decidable (labels : List String) (A : BasicAssignment) :
    Decidable (basicVarBounds labels A) := by
  unfold basicVarBounds
  infer_instance

theorem string_dawn_ne_dusk : ("dawn" : String) ≠ "dusk" := by decide

theorem string_dusk_ne_dawn : ("dusk" : String) ≠ "dawn" := by decide

theorem exAssign_feasible :
    basicConstraints exTps 1 exParam exActs exAssign := by
  norm_num [basicConstraints, sumOver, exActs, exDawn, exDusk, exTps, exParam,
    exAssign, maxTime, qmaxList, binary, DAWN_NAME, DUSK_NAME, HOME_NAME,
    string_dawn_ne_dusk, string_dusk_ne_dawn]

theorem exAssign_bounds :
    basicVarBounds (exActs.map (·.label)) exAssign := by
  decide

/-- Witness for C4 on the concrete instance. -/
theorem day_budget_closure_witness :
    sumOver (exActs.map (·.label)) (fun a => exAssign.d a + exAssign.tt a) =
      qmaxList (exTps.map fun tp => tp.period.2) :=
  day_budget_closure exTps 1 exParam exActs exAssign exAssign_feasible

/-- Witness for C10 on the concrete instance, at the DAWN activity. -/
theorem feasible_window_unconditional_witness :
    exAssign.x exDawn.label ≥
      (exParam exDawn.act_type exDawn.scoring_group).feasible_start ∧
    exAssign.x exDawn.label + exAssign.d exDawn.label ≤
      (exParam exDawn.act_type exDawn.scoring_group).feasible_end ∧
    exAssign.w exDawn.label * 1 ≤ exAssign.d exDawn.label ∧
    (exAssign.w exDawn.label = 0 → 0 ≤ exAssign.d exDawn.label) :=
  feasible_window_unconditional exTps 1 exParam exActs exAssign
    exAssign_feasible exDawn (by simp [exActs])

/-- Witness for C3 on the concrete instance: the anchor equalities. -/
theorem anchor_and_degree_constraints_witness :
    exAssign.x DAWN_NAME = 0 ∧
    exAssign.x DUSK_NAME + exAssign.d DUSK_NAME = maxTime exTps :=
  ⟨(anchor_and_degree_constraints exTps 1 exParam exActs exAssign
      exAssign_feasible exAssign_bounds exDawn (by simp [exActs]) rfl
      exDusk (by simp [exActs]) rfl).1,
   (anchor_and_degree_constraints exTps 1 exParam exActs exAssign
      exAssign_feasible exAssign_bounds exDawn (by simp [exActs]) rfl
      exDusk (by simp [exActs]) rfl).2.1⟩

theorem le_qmaxList (l : List ℚ) (v : ℚ) (hv : v ∈ l) : v ≤ qmaxList l := by
  induction l with
  | nil => simp at hv
  | cons a t ih =>
    cases t with
    | nil =>
      simp at hv
      simp [qmaxList, hv]
    | cons b rest =>
      rcases List.mem_cons.mp hv with rfl | hvt
      · exact le_max_left _ _
      · exact le_trans (ih hvt) (le_max_right _ _)

theorem qmaxList_mem (l : List ℚ) (hl : l ≠ []) : qmaxList l ∈ l := by
  induction l with
  | nil => exact absurd rfl hl
  | cons a t ih =>
    cases t with
    | nil => simp [qmaxList]
    | cons b rest =>
      rcases max_choice a (qmaxList (b :: rest)) with hc | hc
      · rw [show qmaxList (a :: b :: rest) = max a (qmaxList (b :: rest)) from rfl, hc]
        simp
      · rw [show qmaxList (a :: b :: rest) = max a (qmaxList (b :: rest)) from rfl, hc]
        exact List.mem_cons_of_mem a (ih (by simp))

theorem indicatorSum_eq_one {α : Type} [DecidableEq α] (l : List α) (j : α)
    (hnd : l.Nodup) (hj : j ∈ l) :
    sumOver l (fun i => if i = j then (1 : ℚ) else 0) = 1 := by
  induction l with
  | nil => simp at hj
  | cons a t ih =>
    rw [sumOver_cons]
    rcases List.mem_cons.mp hj with rfl | hjt
    · have hnot : j ∉ t := (List.nodup_cons.mp hnd).1
      rw [if_pos rfl, sumOver_eq_zero t _ ?_]
      · norm_num
      · intro b hb
        rw [if_neg]
        intro hbj
        exact hnot (hbj ▸ hb)
    · have hne : a ≠ j := by
        intro h
        exact (List.nodup_cons.mp hnd).1 (h ▸ hjt)
      rw [if_neg hne, ih (List.nodup_cons.mp hnd).2 hjt]
      norm_num

/-! ## Start-time penalties (src/ortools_model/activity_penalties.py)

`_get_start_time_penalties` posts, for one activity with desired start times
`des` and start variable value `x`, the constraints below on the block
variables `x_penalty`, `ea_max[i]`, `la_max[i]` and (when `len(des) > 1`)
the binary choosers `w_x[i]`. -/

/-- Values of the per-activity start-time penalty block variables. -/
structure StartPenAssignment where
  x_penalty : ℚ
  ea_max : ℕ → ℚ
  la_max : ℕ → ℚ
  w_x : ℕ → ℚ

/-- The constraints of `_get_start_time_penalties` for one activity:
`ea_max[i] ≥ des[i] - x`, `ea_max[i] ≥ 0`, `la_max[i] ≥ x - des[i]`,
`la_max[i] ≥ 0` for every alternative `i`, and, when several desired start
times exist, binary choosers summing to one together with the two-sided
big-M bounds on `x_penalty`; with a single desired start time, the pinned
equality instead. -/
def startPenConstraints (big_m pen_early pen_late : ℚ) (des : List ℚ) (x : ℚ)
    (A : StartPenAssignment) : Prop :=
  (des.length > 1 →
    (∀ i ∈ List.range des.length, binary (A.w_x i)) ∧
    sumOver (List.range des.length) A.w_x = 1) ∧
  ∀ i ∈ List.range des.length,
    A.ea_max i ≥ des.getD i 0 - x ∧
    A.ea_max i ≥ 0 ∧
    A.la_max i ≥ x - des.getD i 0 ∧
    A.la_max i ≥ 0 ∧
    (if des.length > 1 then
      A.x_penalty ≥ pen_early * A.ea_max i + pen_late * A.la_max i ∧
      A.x_penalty ≤ pen_early * A.ea_max i + pen_late * A.la_max i +
        big_m * (1 - A.w_x i)
     else
      A.x_penalty = pen_early * A.ea_max i + pen_late * A.la_max i)

/-- The closed-form deviation penalty of one alternative:
`pen_early·max(0, dsi − x) + pen_late·max(0, x − dsi)`. -/
def devPenalty (pen_early pen_late dsi x : ℚ) : ℚ :=
  pen_early * max 0 (dsi - x) + pen_late * max 0 (x - dsi)

/-- The best (maximal, i.e. of minimal magnitude since the coefficients are
non-positive) deviation penalty across the alternatives. -/
def bestStartPenalty (pen_early pen_late : ℚ) (des : List ℚ) (x : ℚ) : ℚ :=
  qmaxList (des.map fun dsi => devPenalty pen_early pen_late dsi x)

/-- The value asserted by the specification: the minimum over alternatives
of the closed-form deviation penalty. -/
def claimedStartPenalty (pen_early pen_late : ℚ) (des : List ℚ) (x : ℚ) : ℚ :=
  qminList (des.map fun dsi => devPenalty pen_early pen_late dsi x)

/-- Every feasible value of the block variable `x_penalty` is at most
`bound`. -/
def startPenUpperBounded (big_m pen_early pen_late : ℚ) (des : List ℚ)
    (x bound : ℚ) : Prop :=
  ∀ A : StartPenAssignment, startPenConstraints big_m pen_early pen_late des x A →
    A.x_penalty ≤ bound

/-- Some feasible assignment of the block realizes `x_penalty = value`. -/
def startPenAttains (big_m pen_early pen_late : ℚ) (des : List ℚ)
    (x value : ℚ) : Prop :=
  ∃ A : StartPenAssignment,
    startPenConstraints big_m pen_early pen_late des x A ∧ A.x_penalty = value

theorem startPen_le_best (big_m pen_early pen_late : ℚ) (des : List ℚ) (x : ℚ)
    (hpe : pen_early ≤ 0) (hpl : pen_late ≤ 0) (hlen : 1 < des.length)
    (A : StartPenAssignment)
    (hA : startPenConstraints big_m pen_early pen_late des x A) :
    A.x_penalty ≤ bestStartPenalty pen_early pen_late des x := by
  obtain ⟨hch, hper⟩ := hA
  obtain ⟨hbin, hsum⟩ := hch hlen
  obtain ⟨i, hi, hwi, -⟩ := binarySum_eq_one _ _ hbin hsum
  obtain ⟨hea1, hea0, hla1, hla0, hpen⟩ := hper i hi
  rw [if_pos hlen] at hpen
  obtain ⟨-, hub⟩ := hpen
  rw [hwi] at hub
  have hilt : i < des.length := List.mem_range.mp hi
  have heamax : max 0 (des.getD i 0 - x) ≤ A.ea_max i := max_le hea0 hea1
  have hlamax : max 0 (x - des.getD i 0) ≤ A.la_max i := max_le hla0 hla1
  have h1 : pen_early * A.ea_max i ≤ pen_early * max 0 (des.getD i 0 - x) :=
    mul_le_mul_of_nonpos_left heamax hpe
  have h2 : pen_late * A.la_max i ≤ pen_late * max 0 (x - des.getD i 0) :=
    mul_le_mul_of_nonpos_left hlamax hpl
  have hmem : devPenalty pen_early pen_late (des.getD i 0) x ∈
      des.map fun dsi => devPenalty pen_early pen_late dsi x := by
    refine List.mem_map.mpr ⟨des.getD i 0, ?_, rfl⟩
    rw [List.getD_eq_getElem des 0 hilt]
    exact List.getElem_mem hilt
  have hle := le_qmaxList _ _ hmem
  have hdev : devPenalty pen_early pen_late (des.getD i 0) x =
      pen_early * max 0 (des.getD i 0 - x) +
        pen_late * max 0 (x - des.getD i 0) := rfl
  unfold bestStartPenalty
  linarith

theorem startPen_attain (big_m pen_early pen_late : ℚ) (des : List ℚ) (x : ℚ)
    (hlen : 1 < des.length)
    (hM : ∀ d1 ∈ des, ∀ d2 ∈ des,
      devPenalty pen_early pen_late d1 x - devPenalty pen_early pen_late d2 x ≤
        big_m) :
    startPenAttains big_m pen_early pen_late des x
      (bestStartPenalty pen_early pen_late des x) := by
  have hne : des.map (fun dsi => devPenalty pen_early pen_late dsi x) ≠ [] := by
    intro h
    have := List.map_eq_nil_iff.mp h
    rw [this] at hlen
    simp at hlen
  obtain ⟨dj, hdj, hdjval⟩ :=
    List.mem_map.mp (qmaxList_mem _ hne)
  obtain ⟨j, hjlt, hjget⟩ := List.mem_iff_getElem.mp hdj
  refine ⟨{ x_penalty := bestStartPenalty pen_early pen_late des x,
            ea_max := fun i => max 0 (des.getD i 0 - x),
            la_max := fun i => max 0 (x - des.getD i 0),
            w_x := fun i => if i = j then 1 else 0 }, ⟨?_, ?_⟩, rfl⟩
  · intro _
    constructor
    · intro i _
      by_cases h : i = j <;> simp [binary, h]
    · exact indicatorSum_eq_one _ j (List.nodup_range _) (List.mem_range.mpr hjlt)
  · intro i hi
    have hilt : i < des.length := List.mem_range.mp hi
    dsimp only
    refine ⟨le_max_right _ _, le_max_left _ _, le_max_right _ _, le_max_left _ _, ?_⟩
    rw [if_pos hlen]
    have hdev_mem : devPenalty pen_early pen_late (des.getD i 0) x ∈
        des.map fun dsi => devPenalty pen_early pen_late dsi x := by
      refine List.mem_map.mpr ⟨des.getD i 0, ?_, rfl⟩
      rw [List.getD_eq_getElem des 0 hilt]
      exact List.getElem_mem hilt
    have hlow := le_qmaxList _ _ hdev_mem
    have hdev : devPenalty pen_early pen_late (des.getD i 0) x =
        pen_early * max 0 (des.getD i 0 - x) +
          pen_late * max 0 (x - des.getD i 0) := rfl
    constructor
    · unfold bestStartPenalty
      linarith
    · by_cases hij : i = j
      · subst hij
        have hgd : des.getD i 0 = dj := by
          rw [List.getD_eq_getElem des 0 hilt]
          exact hjget
        rw [if_pos rfl]
        rw [hgd] at hdev
        unfold bestStartPenalty
        rw [hgd]
        linarith [hdjval, hdev]
      · rw [if_neg hij]
        have hdi : des.getD i 0 ∈ des := by
          rw [List.getD_eq_getElem des 0 hilt]
          exact List.getElem_mem hilt
        have hgap := hM dj hdj (des.getD i 0) hdi
        unfold bestStartPenalty
        linarith [hdjval, hdev, hgap]

/-- Claim C1, amended: for an activity with `k > 1` desired start times the
formulation introduces binary choosers summing to one and the two-sided
big-M bounds on `x_penalty`, so that — the penalty coefficients being
non-positive and big-M dominating the penalty spread — every feasible
assignment of the block has `x_penalty ≤ max_i(pen_early·max(0,d_i−x) +
pen_late·max(0,x−d_i))` and that value is attained; hence every optimal
solution realizes `x_penalty` equal to the `max_i` (the minimum-magnitude
penalty across alternatives), not the `min_i` of the claim's formula. -/
theorem start_penalty_min_over_alternatives (big_m pen_early pen_late : ℚ)
    (des : List ℚ) (x : ℚ)
    (hpe : pen_early ≤ 0) (hpl : pen_late ≤ 0) (hlen : 1 < des.length)
    (hM : ∀ d1 ∈ des, ∀ d2 ∈ des,
      devPenalty pen_early pen_late d1 x - devPenalty pen_early pen_late d2 x ≤
        big_m) :
    startPenUpperBounded big_m pen_early pen_late des x
      (bestStartPenalty pen_early pen_late des x) ∧
    startPenAttains big_m pen_early pen_late des x
      (bestStartPenalty pen_early pen_late des x) :=
  ⟨fun A hA => startPen_le_best big_m pen_early pen_late des x hpe hpl hlen A hA,
   startPen_attain big_m pen_early pen_late des x hlen hM⟩

/-- Witness for the amended C1 at `des = [6, 10]`, `x = 6`,
`pen_early = pen_late = -1`, `big_m = 1000`. -/
theorem start_penalty_min_over_alternatives_witness :
    startPenUpperBounded 1000 (-1) (-1) [6, 10] 6
      (bestStartPenalty (-1) (-1) [6, 10] 6) ∧
    startPenAttains 1000 (-1) (-1) [6, 10] 6
      (bestStartPenalty (-1) (-1) [6, 10] 6) :=
  start_penalty_min_over_alternatives 1000 (-1) (-1) [6, 10] 6
    (by norm_num) (by norm_num) (by norm_num)
    (by
      intro d1 h1 d2 h2
      fin_cases h1 <;> fin_cases h2 <;> norm_num [devPenalty, max_def])

/-- Counterexample to claim C1 as stated: at desired start times `[0, 10]`,
`x = 0`, `pen_early = pen_late = -1`, `big_m = 1000`, the feasible values of
`x_penalty` are bounded above by `0` and `0` is attained, so the realized
optimal `x_penalty` is `0`; the claim's formula
`min_i(pen_early·max(0,d_i−x)+pen_late·max(0,x−d_i))` evaluates to `-10`. -/
theorem start_penalty_claim_counterexample :
    startPenUpperBounded 1000 (-1) (-1) [0, 10] 0 0 ∧
    startPenAttains 1000 (-1) (-1) [0, 10] 0 0 ∧
    claimedStartPenalty (-1) (-1) [0, 10] 0 = -10 ∧
    (0 : ℚ) ≠ -10 := by
  have hbest : bestStartPenalty (-1) (-1) [0, 10] 0 = 0 := by
    norm_num [bestStartPenalty, devPenalty, qmaxList, max_def]
  refine ⟨?_, ?_, ?_, by norm_num⟩
  · intro A hA
    have h := startPen_le_best 1000 (-1) (-1) [0, 10] 0
      (by norm_num) (by norm_num) (by norm_num) A hA
    rw [hbest] at h
    exact h
  · have h := startPen_attain 1000 (-1) (-1) [0, 10] 0 (by norm_num)
      (by
        intro d1 h1 d2 h2
        fin_cases h1 <;> fin_cases h2 <;> norm_num [devPenalty, max_def])
    rw [hbest] at h
    exact h
  · norm_num [claimedStartPenalty, devPenalty, qminList, max_def, min_def]

/-! ## Duration penalties (src/ortools_model/activity_penalties.py)

`_get_duration_penalties`, for an individually scored activity (neither
primary nor the DAWN activity): the `else` branch compares the duration
variable `d` with each desired duration. -/

/-- Values of the per-activity duration penalty block variables. -/
structure DurPenAssignment where
  d_penalty : ℚ
  sd_max : ℕ → ℚ
  ld_max : ℕ → ℚ
  w_d : ℕ → ℚ

/-- The constraints of `_get_duration_penalties` for one individually scored
activity with desired durations `des` and duration variable value `d`. -/
def durPenConstraints (big_m pen_short pen_long : ℚ) (des : List ℚ) (d : ℚ)
    (A : DurPenAssignment) : Prop :=
  (des.length > 1 →
    (∀ i ∈ List.range des.length, binary (A.w_d i)) ∧
    sumOver (List.range des.length) A.w_d = 1) ∧
  ∀ i ∈ List.range des.length,
    A.sd_max i ≥ des.getD i 0 - d ∧
    A.ld_max i ≥ d - des.getD i 0 ∧
    A.sd_max i ≥ 0 ∧
    A.ld_max i ≥ 0 ∧
    (if des.length > 1 then
      A.d_penalty ≥ pen_short * A.sd_max i + pen_long * A.ld_max i ∧
      A.d_penalty ≤ pen_short * A.sd_max i + pen_long * A.ld_max i +
        big_m * (1 - A.w_d i)
     else
      A.d_penalty = pen_short * A.sd_max i + pen_long * A.ld_max i)

/-- The start-time penalty constraints never mention the chooser component
when they hold for a block assignment, its chooser values may be replaced
arbitrarily (this is how "no chooser binary is created" reads on the
embedding). -/
def startPenChooserFree (big_m pen_early pen_late : ℚ) (des : List ℚ)
    (x : ℚ) : Prop :=
  ∀ (A : StartPenAssignment) (g : ℕ → ℚ),
    startPenConstraints big_m pen_early pen_late des x A →
    startPenConstraints big_m pen_early pen_late des x { A with w_x := g }

/-- The start-time penalty variable is pinned by equality to the weighted
deviation sum of the unique alternative. -/
def startPenPinned (big_m pen_early pen_late : ℚ) (des : List ℚ)
    (x : ℚ) : Prop :=
  ∀ A : StartPenAssignment,
    startPenConstraints big_m pen_early pen_late des x A →
    A.x_penalty = pen_early * A.ea_max 0 + pen_late * A.la_max 0

/-- Chooser-independence of the duration penalty constraints. -/
def durPenChooserFree (big_m pen_short pen_long : ℚ) (des : List ℚ)
    (d : ℚ) : Prop :=
  ∀ (A : DurPenAssignment) (g : ℕ → ℚ),
    durPenConstraints big_m pen_short pen_long des d A →
    durPenConstraints big_m pen_short pen_long des d { A with w_d := g }

/-- The duration penalty variable is pinned by equality to the weighted
deviation sum of the unique alternative. -/
def durPenPinned (big_m pen_short pen_long : ℚ) (des : List ℚ)
    (d : ℚ) : Prop :=
  ∀ A : DurPenAssignment,
    durPenConstraints big_m pen_short pen_long des d A →
    A.d_penalty = pen_short * A.sd_max 0 + pen_long * A.ld_max 0

/-- Every feasible value of the block variable `d_penalty` is at most
`bound`. -/
def durPenUpperBounded (big_m pen_short pen_long : ℚ) (des : List ℚ)
    (d bound : ℚ) : Prop :=
  ∀ A : DurPenAssignment,
    durPenConstraints big_m pen_short pen_long des d A →
    A.d_penalty ≤ bound

/-- Some feasible assignment of the block realizes `d_penalty = value`. -/
def durPenAttains (big_m pen_short pen_long : ℚ) (des : List ℚ)
    (d value : ℚ) : Prop :=
  ∃ A : DurPenAssignment,
    durPenConstraints big_m pen_short pen_long des d A ∧ A.d_penalty = value

/-- Claim C5: with exactly one desired start time (resp. one desired
duration for an individually scored activity) no chooser binary is
constrained, the penalty variable is pinned by equality to the weighted
deviation sum, every feasible penalty value is at most the closed-form
deviation formula, and that closed form is attained — the big-M relaxation
plays no part. -/
theorem single_alternative_penalties_pinned
    (big_m pen_early pen_late pen_short pen_long t u x d : ℚ)
    (hpe : pen_early ≤ 0) (hpl : pen_late ≤ 0)
    (hps : pen_short ≤ 0) (hplg : pen_long ≤ 0) :
    startPenChooserFree big_m pen_early pen_late [t] x ∧
    startPenPinned big_m pen_early pen_late [t] x ∧
    startPenUpperBounded big_m pen_early pen_late [t] x
      (devPenalty pen_early pen_late t x) ∧
    startPenAttains big_m pen_early pen_late [t] x
      (devPenalty pen_early pen_late t x) ∧
    durPenChooserFree big_m pen_short pen_long [u] d ∧
    durPenPinned big_m pen_short pen_long [u] d ∧
    durPenUpperBounded big_m pen_short pen_long [u] d
      (devPenalty pen_short pen_long u d) ∧
    durPenAttains big_m pen_short pen_long [u] d
      (devPenalty pen_short pen_long u d) := by
  have hmem0 : (0 : ℕ) ∈ List.range ([t] : List ℚ).length := by simp
  have hnotlen : ¬(([t] : List ℚ).length > 1) := by norm_num
  have hmem0u : (0 : ℕ) ∈ List.range ([u] : List ℚ).length := by simp
  have hnotlenu : ¬(([u] : List ℚ).length > 1) := by norm_num
  refine ⟨?_, ?_, ?_, ?_, ?_, ?_, ?_, ?_⟩
  · intro A g hA
    exact ⟨fun h => absurd h hnotlen, hA.2⟩
  · intro A hA
    obtain ⟨-, -, -, -, hpen⟩ := hA.2 0 hmem0
    rw [if_neg hnotlen] at hpen
    exact hpen
  · intro A hA
    obtain ⟨hea1, hea0, hla1, hla0, hpen⟩ := hA.2 0 hmem0
    rw [if_neg hnotlen] at hpen
    have h1 : pen_early * A.ea_max 0 ≤ pen_early * max 0 (t - x) :=
      mul_le_mul_of_nonpos_left (max_le hea0 hea1) hpe
    have h2 : pen_late * A.la_max 0 ≤ pen_late * max 0 (x - t) :=
      mul_le_mul_of_nonpos_left (max_le hla0 hla1) hpl
    have hdev : devPenalty pen_early pen_late t x =
        pen_early * max 0 (t - x) + pen_late * max 0 (x - t) := rfl
    linarith
  · refine ⟨{ x_penalty := devPenalty pen_early pen_late t x,
              ea_max := fun _ => max 0 (t - x),
              la_max := fun _ => max 0 (x - t),
              w_x := fun _ => 0 }, ⟨fun h => absurd h hnotlen, ?_⟩, rfl⟩
    intro i hi
    have : i = 0 := Nat.lt_one_iff.mp (List.mem_range.mp hi)
    subst this
    dsimp only
    refine ⟨le_max_right _ _, le_max_left _ _, le_max_right _ _, le_max_left _ _, ?_⟩
    rw [if_neg hnotlen]
    rfl
  · intro A g hA
    exact ⟨fun h => absurd h hnotlenu, hA.2⟩
  · intro A hA
    obtain ⟨-, -, -, -, hpen⟩ := hA.2 0 hmem0u
    rw [if_neg hnotlenu] at hpen
    exact hpen
  · intro A hA
    obtain ⟨hsd1, hld1, hsd0, hld0, hpen⟩ := hA.2 0 hmem0u
    rw [if_neg hnotlenu] at hpen
    have h1 : pen_short * A.sd_max 0 ≤ pen_short * max 0 (u - d) :=
      mul_le_mul_of_nonpos_left (max_le hsd0 hsd1) hps
    have h2 : pen_long * A.ld_max 0 ≤ pen_long * max 0 (d - u) :=
      mul_le_mul_of_nonpos_left (max_le hld0 hld1) hplg
    have hdev : devPenalty pen_short pen_long u d =
        pen_short * max 0 (u - d) + pen_long * max 0 (d - u) := rfl
    linarith
  · refine ⟨{ d_penalty := devPenalty pen_short pen_long u d,
              sd_max := fun _ => max 0 (u - d),
              ld_max := fun _ => max 0 (d - u),
              w_d := fun _ => 0 }, ⟨fun h => absurd h hnotlenu, ?_⟩, rfl⟩
    intro i hi
    have : i = 0 := Nat.lt_one_iff.mp (List.mem_range.mp hi)
    subst this
    dsimp only
    refine ⟨le_max_right _ _, le_max_right _ _, le_max_left _ _, le_max_left _ _, ?_⟩
    rw [if_neg hnotlenu]
    rfl

/-- Witness for C5 at `t = 8`, `u = 2`, `x = 9`, `d = 1`,
all penalty coefficients `-2`, `big_m = 1000`. -/
theorem single_alternative_penalties_pinned_witness :
    startPenChooserFree 1000 (-2) (-2) [8] 9 ∧
    startPenPinned 1000 (-2) (-2) [8] 9 ∧
    startPenUpperBounded 1000 (-2) (-2) [8] 9 (devPenalty (-2) (-2) 8 9) ∧
    startPenAttains 1000 (-2) (-2) [8] 9 (devPenalty (-2) (-2) 8 9) ∧
    durPenChooserFree 1000 (-2) (-2) [2] 1 ∧
    durPenPinned 1000 (-2) (-2) [2] 1 ∧
    durPenUpperBounded 1000 (-2) (-2) [2] 1 (devPenalty (-2) (-2) 2 1) ∧
    durPenAttains 1000 (-2) (-2) [2] 1 (devPenalty (-2) (-2) 2 1) :=
  single_alternative_penalties_pinned 1000 (-2) (-2) (-2) (-2) 8 2 9 1
    (by norm_num) (by norm_num) (by norm_num) (by norm_num)

/-! ## Objective (src/ortools_model/optimization_core.py, `_add_objective`)

`obj_aux[a]` is an unbounded real, gated by four big-M inequalities, and the
single objective maximizes the sum of all `obj_aux`. -/

/-- The sense of the single model objective. -/
inductive ObjSense where
  | maximize
  | minimize
deriving DecidableEq, Repr

/-- The four constraints posted per activity by `_add_objective`.
`x_penalty` and `d_penalty` are the Python dictionaries (`.get(a, 0)`
becomes `Option.getD 0`; `d_penalty` holds no entry for home-type or
non-first-of-type primary activities). -/
def objectiveConstraints (big_m : ℚ)
    (actParam : String → String → ActivityParamContainer)
    (acts : List Activity) (w d : String → ℚ)
    (x_penalty d_penalty : String → Option ℚ)
    (travel_cost obj_aux : String → ℚ) : Prop :=
  ∀ act ∈ acts,
    obj_aux act.label ≥ -big_m * w act.label ∧
    obj_aux act.label ≤ big_m * w act.label ∧
    obj_aux act.label ≤
      (actParam act.act_type act.scoring_group).constant +
        d act.label * 0 +
        (x_penalty act.label).getD 0 + (d_penalty act.label).getD 0 +
        travel_cost act.label +
        big_m * (1 - w act.label) ∧
    obj_aux act.label ≥
      (actParam act.act_type act.scoring_group).constant +
        d act.label * 0 +
        (x_penalty act.label).getD 0 + (d_penalty act.label).getD 0 +
        travel_cost act.label -
        big_m * (1 - w act.label)

/-- The single objective set at the end of `_add_objective`:
`m.Maximize(m.Sum(obj_aux[a] for a in self.act_labels))`. -/
def modelObjective (act_labels : List String) (obj_aux : String → ℚ) :
    ObjSense × ℚ :=
  (ObjSense.maximize, sumOver act_labels obj_aux)

/-- Claim C2: in every feasible assignment, `obj_aux[a] = 0` when
`w[a] = 0`, and `obj_aux[a] = constant + x_penalty + d_penalty +
travel_cost` (absent penalty entries counting as 0) when `w[a] = 1`; the
model's single objective is to maximize the sum of `obj_aux` over all
activities. -/
theorem objective_big_m_gating (big_m : ℚ)
    (actParam : String → String → ActivityParamContainer)
    (acts : List Activity) (w d : String → ℚ)
    (x_penalty d_penalty : String → Option ℚ)
    (travel_cost obj_aux : String → ℚ)
    (hO : objectiveConstraints big_m actParam acts w d x_penalty d_penalty
      travel_cost obj_aux) :
    (∀ act ∈ acts,
      (w act.label = 0 → obj_aux act.label = 0) ∧
      (w act.label = 1 → obj_aux act.label =
        (actParam act.act_type act.scoring_group).constant +
          (x_penalty act.label).getD 0 + (d_penalty act.label).getD 0 +
          travel_cost act.label)) ∧
    (∀ act_labels : List String,
      (modelObjective act_labels obj_aux).1 = ObjSense.maximize ∧
      (modelObjective act_labels obj_aux).2 = sumOver act_labels obj_aux) := by
  refine ⟨?_, fun _ => ⟨rfl, rfl⟩⟩
  intro act hact
  obtain ⟨hlo, hhi, hub, hlb⟩ := hO act hact
  constructor
  · intro hw0
    rw [hw0] at hlo hhi
    have h1 : obj_aux act.label ≥ 0 := by linarith
    have h2 : obj_aux act.label ≤ 0 := by linarith
    linarith
  · intro hw1
    rw [hw1] at hub hlb
    have h1 : obj_aux act.label ≤
        (actParam act.act_type act.scoring_group).constant +
          (x_penalty act.label).getD 0 + (d_penalty act.label).getD 0 +
          travel_cost act.label := by linarith
    have h2 : obj_aux act.label ≥
        (actParam act.act_type act.scoring_group).constant +
          (x_penalty act.label).getD 0 + (d_penalty act.label).getD 0 +
          travel_cost act.label := by linarith
    linarith

/-- Concrete data for the objective witness. -/
def exW : String → ℚ := fun _ => 1

/-- Concrete duration values for the objective witness. -/
def exDur : String → ℚ := fun _ => 5

/-- Concrete start-penalty dictionary for the objective witness. -/
def exXPen : String → Option ℚ := fun _ => some (-3)

/-- Concrete duration-penalty dictionary for the objective witness: no
entry, so it must count as 0. -/
def exDPen : String → Option ℚ := fun _ => none

/-- Concrete travel-cost values for the objective witness. -/
def exTC : String → ℚ := fun _ => -2

/-- Concrete objective-auxiliary values for the objective witness. -/
def exObjAux : String → ℚ := fun _ => -5

/-- Witness for C2: at the concrete data, the activity is active and its
`obj_aux` equals constant + penalties + travel cost. -/
theorem objective_big_m_gating_witness :
    exObjAux exDawn.label =
      (exParam exDawn.act_type exDawn.scoring_group).constant +
        (exXPen exDawn.label).getD 0 + (exDPen exDawn.label).getD 0 +
        exTC exDawn.label :=
  ((objective_big_m_gating 1000 exParam [exDawn] exW exDur exXPen exDPen exTC
      exObjAux
      (by norm_num [objectiveConstraints, exParam, exW, exDur, exXPen, exDPen,
        exTC, exObjAux])).1
    exDawn (by simp)).2 rfl

/-! ## Tour indicators (src/gurobi_model/activity_sequence.py,
`_add_tour_indicator_variable`)

`w_tour[a,t]` is a binary per non-DUSK activity and tour number.  The method
posts `Σ_t w_tour[a,t] ≥ w[a]` (note: an inequality) and the edge
propagation pairs restricted to non-home successors. -/

/-- `ActivitySet.get_acts_wo_home`. -/
def get_acts_wo_home (acts : List Activity) : List Activity :=
  acts.filter (fun a => a.act_type ∉ [HOME_NAME, DAWN_NAME, DUSK_NAME])

/-- `ActivitySet.get_tour_numbers`:
`[*range(1, len(activities) - len(acts_wo_home))]`. -/
def get_tour_numbers (acts : List Activity) : List ℕ :=
  List.range' 1 (acts.length - (get_acts_wo_home acts).length - 1)

/-- Values of the variables involved in the tour-indicator block. -/
structure TourAssignment where
  w : String → ℚ
  z : String → String → ℚ
  w_tour : String → ℕ → ℚ

/-- The constraints posted by `_add_tour_indicator_variable` (together with
the binary bounds of the `w_tour` variables it creates). -/
def tourIndicatorConstraints (acts : List Activity) (A : TourAssignment) :
    Prop :=
  (∀ a ∈ (acts.filter (fun a => a.act_type ≠ DUSK_NAME)).map (·.label),
    ∀ t ∈ get_tour_numbers acts, binary (A.w_tour a t)) ∧
  ∀ a ∈ (acts.filter (fun a => a.act_type ≠ DUSK_NAME)).map (·.label),
    sumOver (get_tour_numbers acts) (A.w_tour a) ≥ A.w a ∧
    ∀ b ∈ (acts.filter
        (fun b => b.act_type ∉ [HOME_NAME, DAWN_NAME, DUSK_NAME])).map (·.label),
      ∀ t ∈ get_tour_numbers acts,
        A.z a b ≤ A.w_tour a t - A.w_tour b t + 1 ∧
        A.z a b ≤ A.w_tour b t - A.w_tour a t + 1

/-- An intermediate home activity for the tour-indicator instance. -/
def cHome : Activity :=
  { label := "home1", scoring_group := "", act_type := HOME_NAME,
    tour_type := "secondary", locations := [⟨"h"⟩], location_group := "",
    desired_timing := [13], desired_duration := [2], is_primary := false,
    is_subtour := false, tour_no := -1, participation := 1, mode := "" }

/-- A non-home shopping activity for the tour-indicator instance. -/
def cShop : Activity :=
  { label := "shop", scoring_group := "", act_type := "shopping",
    tour_type := "secondary", locations := [⟨"s"⟩], location_group := "",
    desired_timing := [10], desired_duration := [1], is_primary := false,
    is_subtour := false, tour_no := -1, participation := -1, mode := "" }

/-- The concrete activity set for the tour-indicator instance: two tours. -/
def cTourActs : List Activity := [exDawn, cHome, cShop, exDusk]

/-- An assignment satisfying every constraint of
`_add_tour_indicator_variable` in which the inactive activity `shop`
(`w = 0`) nevertheless carries a set tour indicator. -/
def cTourAssign : TourAssignment :=
  { w := fun _ => 0,
    z := fun _ _ => 0,
    w_tour := fun a t => if a = "shop" ∧ t = 1 then 1 else 0 }

/-- Claim C6 evaluated on the code: the constraints of
`_add_tour_indicator_variable` do not force `Σ_t w_tour[a,t] = w[a]` — the
posted constraint is `Σ_t w_tour[a,t] ≥ w[a]`, and the concrete assignment
with `w[shop] = 0` and `w_tour[shop,1] = 1` satisfies all of them while
`Σ_t w_tour[shop,t] = 1 ≠ 0 = w[shop]`, contradicting the method's own
docstring ("one tour number per activity"). -/
theorem cTour_wtour_binary (a : String) (t : ℕ) :
    binary (cTourAssign.w_tour a t) := by
  dsimp only [cTourAssign]
  split_ifs <;> simp [binary]

theorem tour_indicator_sum_not_forced_equal :
    tourIndicatorConstraints cTourActs cTourAssign ∧
    sumOver (get_tour_numbers cTourActs) (cTourAssign.w_tour "shop") = 1 ∧
    cTourAssign.w "shop" = 0 ∧
    (1 : ℚ) ≠ 0 := by
  have htours : get_tour_numbers cTourActs = [1, 2] := by decide
  refine ⟨⟨?_, ?_⟩, ?_, rfl, by norm_num⟩
  · intro a _ t _
    exact cTour_wtour_binary a t
  · intro a ha
    refine ⟨?_, ?_⟩
    · have hnn := binarySum_nonneg (get_tour_numbers cTourActs)
        (cTourAssign.w_tour a) (fun t _ => cTour_wtour_binary a t)
      exact hnn
    · intro b _ t _
      constructor <;>
        · dsimp only [cTourAssign]
          split_ifs <;> norm_num
  · rw [htours]
    norm_num [sumOver, cTourAssign]

/-! ## Travel matrix (src/scenario/container/travel_components.py)

`TravelDict.get_value` chains four Python dict lookups
(`self.travel_dict[mode][indicator][time_period][od_tuple_str]`); a missing
key at any level raises `KeyError`, embedded here as `none`. -/

/-- `ODTuple.__str__`: the string `f"({origin.name}, {destination.name})"`
used as the innermost dictionary key. -/
def odTupleStr (origin destination : Location) : String :=
  "(" ++ origin.name ++ ", " ++ destination.name ++ ")"

/-- A Python dict as an association list, looked up by exact key match. -/
def dictLookup {α : Type} : List (String × α) → String → Option α
  | [], _ => none
  | (k0, v) :: rest, k => if k0 = k then some v else dictLookup rest k

/-- Python dict keys are unique. -/
def keysNodup {α : Type} (l : List (String × α)) : Prop :=
  (l.map (·.1)).Nodup

theorem dictLookup_mem {α : Type} (l : List (String × α)) (k : String) (v : α)
    (h : dictLookup l k = some v) : (k, v) ∈ l := by
  induction l with
  | nil => simp [dictLookup] at h
  | cons p rest ih =>
    obtain ⟨k0, v0⟩ := p
    rw [dictLookup] at h
    by_cases hk : k0 = k
    · rw [if_pos hk] at h
      subst hk
      simp at h
      simp [h]
    · rw [if_neg hk] at h
      exact List.mem_cons_of_mem _ (ih h)

theorem dictLookup_of_mem {α : Type} (l : List (String × α)) (k : String)
    (v : α) (hnd : keysNodup l) (h : (k, v) ∈ l) : dictLookup l k = some v := by
  induction l with
  | nil => simp at h
  | cons p rest ih =>
    obtain ⟨k0, v0⟩ := p
    rcases List.mem_cons.mp h with heq | htail
    · obtain ⟨h1, h2⟩ := Prod.mk.injEq .. ▸ heq.symm
      rw [dictLookup, if_pos h1, h2]
    · have hk : k0 ≠ k := by
        intro hkk
        subst hkk
        have : k0 ∈ rest.map (·.1) := List.mem_map.mpr ⟨(k0, v), htail, rfl⟩
        exact (List.nodup_cons.mp hnd).1 this
      rw [dictLookup, if_neg hk]
      exact ih (List.nodup_cons.mp hnd).2 htail

/-- `TravelDict` (the 4-level mapping mode → indicator → time period →
OD string → value). -/
structure TravelDict where
  travel_dict : List (String × List (String × List (String × List (String × ℚ))))

/-- `TravelDict.get_value`: the chained lookup
`self.travel_dict[mode][indicator][time_period][od_tuple_str]`. -/
def TravelDict.get_value (td : TravelDict) (mode indicator time_period : String)
    (origin destination : Location) : Option ℚ :=
  (dictLookup td.travel_dict mode).bind fun m1 =>
    (dictLookup m1 indicator).bind fun m2 =>
      (dictLookup m2 time_period).bind fun m3 =>
        dictLookup m3 (odTupleStr origin destination)

/-- The combination is present in the mapping with stored value `v`. -/
def chainMem (td : TravelDict) (mode indicator time_period od : String)
    (v : ℚ) : Prop :=
  ∃ m1, (mode, m1) ∈ td.travel_dict ∧
    ∃ m2, (indicator, m2) ∈ m1 ∧
      ∃ m3, (time_period, m3) ∈ m2 ∧ (od, v) ∈ m3

/-- Keys are unique at every level (a property every Python dict has). -/
def TravelDict.wellFormed (td : TravelDict) : Prop :=
  keysNodup td.travel_dict ∧
  ∀ p ∈ td.travel_dict, keysNodup p.2 ∧
    ∀ q ∈ p.2, keysNodup q.2 ∧
      ∀ r ∈ q.2, keysNodup r.2

/-- Claim C8: `get_value` is a pure function of (mode, indicator, time
period, origin, destination): it returns the stored value exactly when the
combination is present in the mapping, and a lookup error (`none`) — never
a default — when any level of the combination is absent. -/
theorem travel_lookup_exact (td : TravelDict) (hwf : td.wellFormed)
    (mode indicator time_period : String) (origin destination : Location) :
    (∀ v : ℚ,
      td.get_value mode indicator time_period origin destination = some v ↔
      chainMem td mode indicator time_period (odTupleStr origin destination) v) ∧
    (td.get_value mode indicator time_period origin destination = none ↔
      ¬ ∃ v : ℚ, chainMem td mode indicator time_period
        (odTupleStr origin destination) v) := by
  have hmain : ∀ v : ℚ,
      td.get_value mode indicator time_period origin destination = some v ↔
      chainMem td mode indicator time_period (odTupleStr origin destination) v := by
    intro v
    constructor
    · intro h
      simp only [TravelDict.get_value, Option.bind_eq_some] at h
      obtain ⟨m1, h1, m2, h2, m3, h3, h4⟩ := h
      exact ⟨m1, dictLookup_mem _ _ _ h1, m2, dictLookup_mem _ _ _ h2,
        m3, dictLookup_mem _ _ _ h3, dictLookup_mem _ _ _ h4⟩
    · rintro ⟨m1, hm1, m2, hm2, m3, hm3, hv⟩
      have l1 := dictLookup_of_mem _ _ _ hwf.1 hm1
      have wf1 := hwf.2 (mode, m1) hm1
      have l2 := dictLookup_of_mem _ _ _ wf1.1 hm2
      have wf2 := wf1.2 (indicator, m2) hm2
      have l3 := dictLookup_of_mem _ _ _ wf2.1 hm3
      have wf3 := wf2.2 (time_period, m3) hm3
      have l4 := dictLookup_of_mem _ _ _ wf3 hv
      simp [TravelDict.get_value, l1, l2, l3, l4]
  refine ⟨hmain, ?_⟩
  constructor
  · intro hnone
    rintro ⟨v, hv⟩
    have := (hmain v).mpr hv
    rw [hnone] at this
    exact Option.noConfusion this
  · intro hnot
    cases hval : td.get_value mode indicator time_period origin destination with
    | none => rfl
    | some v => exact absurd ⟨v, (hmain v).mp hval⟩ hnot

/-- A concrete travel dictionary with a single entry
`car/travel_times/day/(A, B) ↦ 7`. -/
def exTravelDict : TravelDict :=
  ⟨[("car", [("travel_times", [("day", [("(A, B)", 7)])])])]⟩

theorem exTravelDict_wf : exTravelDict.wellFormed := by
  simp [TravelDict.wellFormed, keysNodup, exTravelDict]

/-- Witness for C8: the present combination returns the stored value, an
absent mode returns a lookup failure. -/
theorem travel_lookup_exact_witness :
    exTravelDict.get_value "car" "travel_times" "day" ⟨"A"⟩ ⟨"B"⟩ = some 7 ∧
    exTravelDict.get_value "walk" "travel_times" "day" ⟨"A"⟩ ⟨"B"⟩ = none :=
  ⟨((travel_lookup_exact exTravelDict exTravelDict_wf "car" "travel_times"
      "day" ⟨"A"⟩ ⟨"B"⟩).1 7).mpr
    (by simp [chainMem, exTravelDict, odTupleStr]),
   ((travel_lookup_exact exTravelDict exTravelDict_wf "walk" "travel_times"
      "day" ⟨"A"⟩ ⟨"B"⟩).2).mpr
    (by simp [chainMem, exTravelDict])⟩

/-! ## Solution extraction (src/ortools_model/optimization_core.py,
`update_activity_set`)

The location/mode part of the extraction loop.  A solved model is embedded
as a partial map from variable name to solution value; `none` stands for
`LookupVariable` failing (the looked-up variable was never created), which
in the source raises inside the `try` block.  The bare `except` then falls
back to `location = a.locations` and `mode = a.mode`.  The successful
branch produces a single location; we normalize both branches to a list,
the successful one as a singleton. -/

/-- The variable name `f"loc_choice_{a}_{l}"`. -/
def locChoiceName (a l : String) : String :=
  "loc_choice_" ++ a ++ "_" ++ l

/-- The variable name `f"mode_ch_{a}_{mo}"`. -/
def modeChName (a mo : String) : String :=
  "mode_ch_" ++ a ++ "_" ++ mo

/-- The `try` block of the extraction: look up every location choice
variable of the activity (any missing one raises), keep the candidates
whose variable solved to 1, take the first (`[0]` raises on an empty
list); then the same for the mode choice variables over the configured
modes. -/
def tryExtractLocMode (sol : String → Option ℚ) (act : Activity)
    (modes : List String) : Option (Location × String) := do
  let locVals ← act.locations.mapM fun l => sol (locChoiceName act.label l.name)
  let loc ← (((act.locations.zip locVals).filter fun p => p.2 == 1).map
    (·.1)).head?
  let modeVals ← modes.mapM fun mo => sol (modeChName act.label mo)
  let mode ← (((modes.zip modeVals).filter fun p => p.2 == 1).map (·.1)).head?
  pure (loc, mode)

/-- The extraction of (chosen locations, chosen mode) for one activity:
the `try` block on success, the `except` fallback
(`location = a.locations; mode = a.mode`) on any failure. -/
def extract_loc_mode (sol : String → Option ℚ) (act : Activity)
    (modes : List String) : List Location × String :=
  match tryExtractLocMode sol act modes with
  | some (loc, mode) => ([loc], mode)
  | none => (act.locations, act.mode)

/-- Claim C7: when no location/mode choice variables were built (so the
activity has a single candidate location, its lookup fails, and the loaded
activity's `mode` is the loader default `""`), extraction falls back to the
first (only) candidate location and to no chosen mode; when choice
variables were built and solved, it returns the unique location and mode
candidates whose choice variables solved to 1. -/
theorem extraction_choice_fallback (sol : String → Option ℚ) (act : Activity)
    (modes : List String) :
    (∀ l0 : Location, act.locations = [l0] →
      sol (locChoiceName act.label l0.name) = none →
      act.mode = "" →
      extract_loc_mode sol act modes = ([l0], "")) ∧
    (∀ (locVals modeVals : List ℚ) (lstar : Location) (mstar : String),
      act.locations.mapM (fun l => sol (locChoiceName act.label l.name)) =
        some locVals →
      ((act.locations.zip locVals).filter fun p => p.2 == 1).map (·.1) =
        [lstar] →
      modes.mapM (fun mo => sol (modeChName act.label mo)) = some modeVals →
      ((modes.zip modeVals).filter fun p => p.2 == 1).map (·.1) = [mstar] →
      extract_loc_mode sol act modes = ([lstar], mstar)) := by
  constructor
  · intro l0 hloc hsol hmode
    have hmapm : act.locations.mapM
        (fun l => sol (locChoiceName act.label l.name)) = none := by
      rw [hloc]
      simp [List.mapM, List.mapM.loop, hsol]
    have htry : tryExtractLocMode sol act modes = none := by
      unfold tryExtractLocMode
      rw [hmapm]
      rfl
    simp only [extract_loc_mode, htry, hloc, hmode]
  · intro locVals modeVals lstar mstar hlocs hlfilter hmodes hmfilter
    have htry : tryExtractLocMode sol act modes = some (lstar, mstar) := by
      unfold tryExtractLocMode
      rw [hlocs, Option.bind_eq_bind, Option.some_bind, hlfilter]
      rw [show ([lstar] : List Location).head? = some lstar from rfl,
        Option.bind_eq_bind, Option.some_bind, hmodes,
        Option.bind_eq_bind, Option.some_bind, hmfilter]
      rfl
    simp only [extract_loc_mode, htry]

/-- A solved model in which no choice variable exists. -/
def solNoChoice : String → Option ℚ := fun _ => none

/-- A solved model with the shop's location and mode choice variables set
to 1. -/
def solChoice : String → Option ℚ := fun s =>
  if s = locChoiceName "shop" "s" then some 1
  else if s = modeChName "shop" "car" then some 1
  else none

/-- Witness for C7: the fallback on a model without choice variables and
the chosen-candidate extraction on a model with them. -/
theorem extraction_choice_fallback_witness :
    extract_loc_mode solNoChoice cShop ["car"] = ([⟨"s"⟩], "") ∧
    extract_loc_mode solChoice cShop ["car"] = ([⟨"s"⟩], "car") :=
  ⟨(extraction_choice_fallback solNoChoice cShop ["car"]).1 ⟨"s"⟩ rfl rfl rfl,
   (extraction_choice_fallback solChoice cShop ["car"]).2 [1] [1] ⟨"s"⟩ "car"
     (by decide) (by decide) (by decide) (by decide)⟩

/-! ## Activity parameter loading (src/parameter/activity_param_loader.py)

`load_activity_params` walks person group → activity type → scoring group,
substitutes `{'': {}}` for a falsy group dict, asserts on each entry that
no penalty coefficient is positive and that the feasible window is not
inverted (all reads via `pa.get(key, default)`), and only then builds the
`ActivityParamContainer`.  A failing assertion raises, embedded as
`Except.error "AssertionError"` (Python's `AssertionError` aborts the whole
call, so nothing is returned). -/

/-- `pa.get(key, default)` on a raw parameter entry. -/
def rawGet (pa : List (String × ℚ)) (k : String) (dflt : ℚ) : ℚ :=
  (dictLookup pa k).getD dflt

/-- The five `assert` statements of `load_activity_params` for one entry. -/
def entryAsserts (pa : List (String × ℚ)) : Prop :=
  rawGet pa "penalty_early" 0 ≤ 0 ∧
  rawGet pa "penalty_late" 0 ≤ 0 ∧
  rawGet pa "penalty_short" 0 ≤ 0 ∧
  rawGet pa "penalty_long" 0 ≤ 0 ∧
  rawGet pa "feasible_start" 0 < rawGet pa "feasible_end" 99999

instance entryAsserts.decidable (pa : List (String × ℚ)) :
    Decidable (entryAsserts pa) := by
  unfold entryAsserts
  infer_instance

/-- The `ActParamContainer(...)` construction of one entry. -/
def buildContainer (pa : List (String × ℚ)) : ActivityParamContainer :=
  { feasible_start := rawGet pa "feasible_start" 0,
    feasible_end := rawGet pa "feasible_end" 99999,
    constant := rawGet pa "constant" 0,
    des_timing_mean := rawGet pa "desired_timing_mean" 0,
    des_timing_std := rawGet pa "desired_timing_std" 0,
    pen_early := rawGet pa "penalty_early" 0,
    pen_late := rawGet pa "penalty_late" 0,
    des_duration_mean := rawGet pa "desired_duration_mean" 0,
    des_duration_std := rawGet pa "desired_duration_std" 0,
    pen_short := rawGet pa "penalty_short" 0,
    pen_long := rawGet pa "penalty_long" 0 }

/-- `ActivityParam` from src/parameter/activity_param_container.py (the
dict keyed by (activity type, scoring group)). -/
structure ActivityParam where
  param : List ((String × String) × ActivityParamContainer)
deriving DecidableEq, Repr

/-- `if not activity_groups: activity_groups = {'': {}}`. -/
def normalizeGroups (activity_groups : List (String × List (String × ℚ))) :
    List (String × List (String × ℚ)) :=
  if activity_groups = [] then [("", [])] else activity_groups

/-- The inner `for gr, pa in activity_groups.items()` loop for one activity
type: assert each entry, then store `(act_type, gr) ↦ container`. -/
def loadGroupEntries (act_type : String) :
    List (String × List (String × ℚ)) →
    Except String (List ((String × String) × ActivityParamContainer))
  | [] => .ok []
  | (gr, pa) :: rest =>
    if entryAsserts pa then
      (loadGroupEntries act_type rest).map
        (fun tail => ((act_type, gr), buildContainer pa) :: tail)
    else .error "AssertionError"

/-- The `for act_type, activity_groups in activity_types.items()` loop for
one person group. -/
def loadActTypes :
    List (String × List (String × List (String × ℚ))) →
    Except String (List ((String × String) × ActivityParamContainer))
  | [] => .ok []
  | (act_type, groups) :: rest => do
    let head ← loadGroupEntries act_type (normalizeGroups groups)
    let tail ← loadActTypes rest
    .ok (head ++ tail)

/-- `load_activity_params`: the outer loop over person groups. -/
def load_activity_params :
    List (String × List (String × List (String × List (String × ℚ)))) →
    Except String (List (String × ActivityParam))
  | [] => .ok []
  | (person_group, activity_types) :: rest => do
    let act_params ← loadActTypes activity_types
    let tail ← load_activity_params rest
    .ok ((person_group, ⟨act_params⟩) :: tail)

/-- Some entry of the raw input (after the falsy-group substitution)
violates an assertion. -/
def hasBadEntry
    (raw : List (String × List (String × List (String × List (String × ℚ))))) :
    Prop :=
  ∃ pg ∈ raw, ∃ t ∈ pg.2, ∃ gp ∈ normalizeGroups t.2, ¬ entryAsserts gp.2

/-- The invariant of every stored container. -/
def containerOk (c : ActivityParamContainer) : Prop :=
  c.pen_early ≤ 0 ∧ c.pen_late ≤ 0 ∧ c.pen_short ≤ 0 ∧ c.pen_long ≤ 0 ∧
  c.feasible_start < c.feasible_end

theorem except_ok_inj {ε α : Type} {a b : α}
    (h : (Except.ok a : Except ε α) = .ok b) : a = b := by
  injection h

theorem except_error_ne_ok {ε α : Type} {e : ε} {b : α}
    (h : (Except.error e : Except ε α) = .ok b) : False :=
  Except.noConfusion h

theorem loadGroupEntries_error (act_type : String)
    (groups : List (String × List (String × ℚ))) (e : String)
    (h : loadGroupEntries act_type groups = .error e) : e = "AssertionError" := by
  induction groups generalizing e with
  | nil =>
    rw [loadGroupEntries] at h
    exact Except.noConfusion h
  | cons p rest ih =>
    obtain ⟨gr, pa⟩ := p
    rw [loadGroupEntries] at h
    by_cases hok : entryAsserts pa
    · rw [if_pos hok] at h
      cases hrec : loadGroupEntries act_type rest with
      | error e2 =>
        rw [hrec] at h
        have he : e2 = e := by
          have : (Except.error e2 : Except String
              (List ((String × String) × ActivityParamContainer))) = .error e := h
          injection this
        exact he ▸ ih e2 hrec
      | ok tail =>
        rw [hrec] at h
        exact absurd (show (Except.ok (((act_type, gr), buildContainer pa) :: tail) :
          Except String _) = .error e from h) (fun hh => Except.noConfusion hh)
    · rw [if_neg hok] at h
      have : ("AssertionError" : String) = e := by injection h
      exact this.symm

theorem loadActTypes_error
    (types : List (String × List (String × List (String × ℚ)))) (e : String)
    (h : loadActTypes types = .error e) : e = "AssertionError" := by
  induction types generalizing e with
  | nil =>
    rw [loadActTypes] at h
    exact Except.noConfusion h
  | cons p rest ih =>
    obtain ⟨act_type, groups⟩ := p
    rw [loadActTypes] at h
    cases hhead : loadGroupEntries act_type (normalizeGroups groups) with
    | error e2 =>
      rw [hhead] at h
      have he : e2 = e := by
        have : (Except.error e2 : Except String
            (List ((String × String) × ActivityParamContainer))) = .error e := h
        injection this
      exact he ▸ loadGroupEntries_error _ _ _ hhead
    | ok head =>
      rw [hhead] at h
      cases htail : loadActTypes rest with
      | error e2 =>
        rw [htail] at h
        have he : e2 = e := by
          have : (Except.error e2 : Except String
              (List ((String × String) × ActivityParamContainer))) = .error e := h
          injection this
        exact he ▸ ih e2 htail
      | ok tail =>
        rw [htail] at h
        exact absurd (show (Except.ok (head ++ tail) : Except String _) =
          .error e from h) (fun hh => Except.noConfusion hh)

theorem loadGroupEntries_ok_sound (act_type : String)
    (groups : List (String × List (String × ℚ)))
    (res : List ((String × String) × ActivityParamContainer))
    (h : loadGroupEntries act_type groups = .ok res) :
    ∀ q ∈ res, containerOk q.2 := by
  induction groups generalizing res with
  | nil =>
    rw [loadGroupEntries] at h
    obtain rfl := (except_ok_inj h).symm
    simp
  | cons p rest ih =>
    obtain ⟨gr, pa⟩ := p
    rw [loadGroupEntries] at h
    by_cases hok : entryAsserts pa
    · rw [if_pos hok] at h
      cases hrec : loadGroupEntries act_type rest with
      | error e =>
        rw [hrec] at h
        exact (except_error_ne_ok h).elim
      | ok tail =>
        rw [hrec] at h
        obtain rfl := (except_ok_inj h).symm
        intro q hq
        rcases List.mem_cons.mp hq with rfl | hqt
        · obtain ⟨h1, h2, h3, h4, h5⟩ := hok
          exact ⟨h1, h2, h3, h4, h5⟩
        · exact ih tail hrec q hqt
    · rw [if_neg hok] at h
      exact (except_error_ne_ok h).elim

theorem loadGroupEntries_bad (act_type : String)
    (groups : List (String × List (String × ℚ)))
    (hbad : ∃ gp ∈ groups, ¬ entryAsserts gp.2) :
    loadGroupEntries act_type groups = .error "AssertionError" := by
  induction groups with
  | nil => simp at hbad
  | cons p rest ih =>
    obtain ⟨gr, pa⟩ := p
    rw [loadGroupEntries]
    by_cases hok : entryAsserts pa
    · rw [if_pos hok]
      obtain ⟨gp, hgp, hbadgp⟩ := hbad
      rcases List.mem_cons.mp hgp with rfl | hgpt
      · exact absurd hok hbadgp
      · rw [ih ⟨gp, hgpt, hbadgp⟩]
        rfl
    · rw [if_neg hok]

theorem loadActTypes_ok_sound
    (types : List (String × List (String × List (String × ℚ))))
    (res : List ((String × String) × ActivityParamContainer))
    (h : loadActTypes types = .ok res) :
    ∀ q ∈ res, containerOk q.2 := by
  induction types generalizing res with
  | nil =>
    rw [loadActTypes] at h
    obtain rfl := (except_ok_inj h).symm
    simp
  | cons p rest ih =>
    obtain ⟨act_type, groups⟩ := p
    rw [loadActTypes] at h
    cases hhead : loadGroupEntries act_type (normalizeGroups groups) with
    | error e =>
      rw [hhead] at h
      exact (except_error_ne_ok h).elim
    | ok head =>
      rw [hhead] at h
      cases htail : loadActTypes rest with
      | error e =>
        rw [htail] at h
        exact (except_error_ne_ok h).elim
      | ok tail =>
        rw [htail] at h
        obtain rfl := (except_ok_inj h).symm
        intro q hq
        rcases List.mem_append.mp hq with hq1 | hq2
        · exact loadGroupEntries_ok_sound act_type _ head hhead q hq1
        · exact ih tail htail q hq2

theorem loadActTypes_bad
    (types : List (String × List (String × List (String × ℚ))))
    (hbad : ∃ t ∈ types, ∃ gp ∈ normalizeGroups t.2, ¬ entryAsserts gp.2) :
    loadActTypes types = .error "AssertionError" := by
  induction types with
  | nil => simp at hbad
  | cons p rest ih =>
    obtain ⟨act_type, groups⟩ := p
    rw [loadActTypes]
    obtain ⟨t, ht, hgp⟩ := hbad
    rcases List.mem_cons.mp ht with rfl | htt
    · rw [loadGroupEntries_bad act_type _ hgp]
      rfl
    · cases hhead : loadGroupEntries act_type (normalizeGroups groups) with
      | error e =>
        rw [loadGroupEntries_error _ _ _ hhead]
        rfl
      | ok head =>
        rw [ih ⟨t, htt, hgp⟩]
        rfl

/-- Claim C9: `load_activity_params` fails (raises) whenever any parameter
entry carries a positive penalty coefficient or a non-increasing feasible
window, returning no container at all; and in every successful result all
four stored penalty coefficients are `≤ 0` and
`feasible_start < feasible_end`. -/
theorem load_activity_params_validates
    (raw : List (String × List (String × List (String × List (String × ℚ))))) :
    (hasBadEntry raw → load_activity_params raw = .error "AssertionError") ∧
    (∀ res, load_activity_params raw = .ok res →
      ∀ p ∈ res, ∀ q ∈ p.2.param, containerOk q.2) := by
  induction raw with
  | nil =>
    constructor
    · intro hbad
      simp [hasBadEntry] at hbad
    · intro res h
      rw [load_activity_params] at h
      obtain rfl := (except_ok_inj h).symm
      simp
  | cons p rest ih =>
    obtain ⟨person_group, activity_types⟩ := p
    constructor
    · intro hbad
      obtain ⟨pg, hpg, hin⟩ := hbad
      rw [load_activity_params]
      rcases List.mem_cons.mp hpg with rfl | hpgt
      · rw [loadActTypes_bad _ hin]
        rfl
      · cases hhead : loadActTypes activity_types with
        | error e =>
          rw [loadActTypes_error _ _ hhead]
          rfl
        | ok head =>
          rw [ih.1 ⟨pg, hpgt, hin⟩]
          rfl
    · intro res h
      rw [load_activity_params] at h
      cases hhead : loadActTypes activity_types with
      | error e =>
        rw [hhead] at h
        exact (except_error_ne_ok h).elim
      | ok head =>
        rw [hhead] at h
        cases htail : load_activity_params rest with
        | error e =>
          rw [htail] at h
          exact (except_error_ne_ok h).elim
        | ok tail =>
          rw [htail] at h
          obtain rfl := (except_ok_inj h).symm
          intro q hq
          rcases List.mem_cons.mp hq with rfl | hqt
          · exact loadActTypes_ok_sound _ head hhead
          · exact ih.2 tail htail q hqt

instance hasBadEntry.decidable
    (raw : List (String × List (String × List (String × List (String × ℚ))))) :
    Decidable (hasBadEntry raw) := by
  unfold hasBadEntry
  infer_instance

/-- A well-formed raw parameter input with one entry. -/
def rawGood : List (String × List (String × List (String × List (String × ℚ)))) :=
  [("pg", [("work", [("", [("feasible_start", 6), ("feasible_end", 20),
    ("penalty_early", -1)])])])]

/-- A raw parameter input whose single entry has a positive
`penalty_early`. -/
def rawBad : List (String × List (String × List (String × List (String × ℚ)))) :=
  [("pg", [("work", [("", [("penalty_early", 3)])])])]

/-- Witness for C9: the bad input fails with an assertion error, the good
input loads and its stored container satisfies the invariant. -/
theorem load_activity_params_validates_witness :
    load_activity_params rawBad = .error "AssertionError" ∧
    containerOk (buildContainer [("feasible_start", 6), ("feasible_end", 20),
      ("penalty_early", -1)]) :=
  ⟨(load_activity_params_validates rawBad).1 (by decide),
   (load_activity_params_validates rawGood).2
     [("pg", ⟨[(("work", ""), buildContainer [("feasible_start", 6),
       ("feasible_end", 20), ("penalty_early", -1)])]⟩)]
     rfl
     ("pg", ⟨[(("work", ""), buildContainer [("feasible_start", 6),
       ("feasible_end", 20), ("penalty_early", -1)])]⟩)
     (by decide)
     (("work", ""), buildContainer [("feasible_start", 6),
       ("feasible_end", 20), ("penalty_early", -1)])
     (by decide)⟩

end OptimsSbb
